import Mathlib

/-!
Verification of the multi-model streaming-completion orchestrator of the
image-edit-bench repository, as a shallow embedding in Lean.

Conventions used throughout this development:
  - JavaScript numbers are modelled as rationals; every rational is finite,
    so the explicit non-finite cases of the source are carried by dedicated
    constructors of `JSValue`.
  - Possibly-undefined JavaScript values are modelled as `Option`.
  - Asynchronous code is modelled by explicit state passing; the interleaving
    points that matter (the stall timer) appear as explicit events.
  - External effects (HTTP fetches, the binary asset store, the SHA-256
    digest) are parameters of the model, so theorems quantify over their
    behaviour.
-/

namespace ImageEditBench

/-! ## JavaScript value model -/

/-- Model of a JavaScript value as probed by the numeric helpers of the
source: a finite number, a non-finite number (NaN or an infinity), a string
that parses (after trim) to a finite number, a string that does not, or
`undefined`/`null`. -/
inductive JSValue where
  | num (q : ℚ)
  | nonFinite
  | strNum (q : ℚ)
  | strBad
  | undef
deriving DecidableEq, Repr

/-- Embedding of `toFiniteNumber` from `src/lib/cost.ts`: numbers pass when
finite, non-blank strings pass when they parse to a finite number, everything
else yields `null`. -/
def toFiniteNumber : JSValue → Option ℚ
  | .num q => some q
  | .nonFinite => none
  | .strNum q => some q
  | .strBad => none
  | .undef => none

/-! ## Cost estimator (`src/lib/cost.ts`) -/

/-- Per-model pricing table as read by the cost estimator. Absent fields are
`JSValue.undef`. -/
structure Pricing where
  prompt : JSValue := .undef
  completion : JSValue := .undef
  image : JSValue := .undef
  request : JSValue := .undef
deriving DecidableEq, Repr

/-- Embedding of `calculateModelCostUsd` from `src/lib/cost.ts` (lines
14-48): if the pricing table is missing, or any of the four prices
(prompt, completion, request, image) fails `toFiniteNumber`, the result is
`null`; otherwise the cost is
prompt-tokens times prompt-price, plus completion-tokens times
completion-price, plus the flat request price, plus output-images times the
per-image price. Over rationals the final finiteness check of the source
always passes. -/
def calculateModelCostUsd (pricing : Option Pricing)
    (promptTokens completionTokens outputImages : ℚ) : Option ℚ :=
  match pricing with
  | none => none
  | some p =>
    match toFiniteNumber p.prompt, toFiniteNumber p.completion,
        toFiniteNumber p.request, toFiniteNumber p.image with
    | some promptPrice, some completionPrice, some requestPrice,
        some imagePrice =>
        some (promptTokens * promptPrice + completionTokens * completionPrice
          + requestPrice + outputImages * imagePrice)
    | _, _, _, _ => none

/-! ## Default entries and merging (`src/stores/defaultsStore.ts`) -/

/-- A defaults entry as stored by the defaults store. Value fields that the
source can leave `undefined` (including in the synthetic base entry built by
`getMergedDefaults` when no common entry matches) are `Option`s; each value
field is paired with its explicit is-set flag. -/
structure DefaultEntry where
  id : String := ""
  name : String := ""
  modelFilter : String := ""
  systemMessage : Option String := none
  systemMessageSet : Bool := false
  streamReasoning : Option Bool := none
  streamReasoningSet : Bool := false
  reasoningEffort : Option String := none
  reasoningEffortSet : Bool := false
  temperature : Option ℚ := none
  temperatureSet : Bool := false
  keepOnlyLastImage : Option Bool := none
  keepOnlyLastImageSet : Bool := false
  outputFormat : Option String := none
  outputFormatSet : Bool := false
  imageAspectRatio : Option String := none
  imageAspectRatioSet : Bool := false
  imageSize : Option String := none
  imageSizeSet : Bool := false
  createdAt : Nat := 0
  updatedAt : Nat := 0
deriving DecidableEq, Repr

/-- Case-insensitive regular-expression test, modelled for the fragment of
JavaScript regular expressions the defaults of this development exercise:
an optional leading caret anchor followed by a metacharacter-free literal.
With the anchor the literal must be a prefix of the model id, without it a
substring; both sides are lowercased, mirroring
`new RegExp(entry.modelFilter, "i").test(modelId)`. Patterns that would
fail to compile are outside the modelled fragment (the source skips them). -/
def regexTestI (pattern modelId : String) : Bool :=
  let p := pattern.toList.map Char.toLower
  let s := modelId.toList.map Char.toLower
  match p with
  | Char.ofNat 94 :: rest => decide (rest <+: s)
  | _ => decide (p <:+: s)

/-- Stable insertion into a list ascending by a numeric key; together with
`sortByKey` this models the stable `Array.prototype.sort` with a
subtraction comparator on that key. -/
def insertByKey (key : α → Nat) (x : α) : List α → List α
  | [] => [x]
  | y :: ys =>
      if key x < key y then x :: y :: ys
      else y :: insertByKey key x ys

/-- Stable sort by a numeric key, ascending. -/
def sortByKey (key : α → Nat) : List α → List α
  | [] => []
  | x :: xs => insertByKey key x (sortByKey key xs)

/-- Stable sort of default entries by `createdAt`, ascending. -/
def sortByCreatedAt (l : List DefaultEntry) : List DefaultEntry :=
  sortByKey (fun e => e.createdAt) l

/-- One step of the field-by-field merge loop of `getMergedDefaults`
(defaultsStore, lines 331-379): every value field of the more specific entry
overrides the accumulator exactly when its is-set flag is true, and the
merged is-set flag is raised in that case (the source writes true, which
equals the disjunction written here since the branch requires the specific
flag). -/
def mergeSpecific (merged specific : DefaultEntry) : DefaultEntry :=
  { merged with
    systemMessage := if specific.systemMessageSet then specific.systemMessage
      else merged.systemMessage
    systemMessageSet := specific.systemMessageSet || merged.systemMessageSet
    streamReasoning := if specific.streamReasoningSet
      then specific.streamReasoning else merged.streamReasoning
    streamReasoningSet := specific.streamReasoningSet
      || merged.streamReasoningSet
    reasoningEffort := if specific.reasoningEffortSet
      then specific.reasoningEffort else merged.reasoningEffort
    reasoningEffortSet := specific.reasoningEffortSet
      || merged.reasoningEffortSet
    temperature := if specific.temperatureSet then specific.temperature
      else merged.temperature
    temperatureSet := specific.temperatureSet || merged.temperatureSet
    keepOnlyLastImage := if specific.keepOnlyLastImageSet
      then specific.keepOnlyLastImage else merged.keepOnlyLastImage
    keepOnlyLastImageSet := specific.keepOnlyLastImageSet
      || merged.keepOnlyLastImageSet
    outputFormat := if specific.outputFormatSet then specific.outputFormat
      else merged.outputFormat
    outputFormatSet := specific.outputFormatSet || merged.outputFormatSet
    imageAspectRatio := if specific.imageAspectRatioSet
      then specific.imageAspectRatio else merged.imageAspectRatio
    imageAspectRatioSet := specific.imageAspectRatioSet
      || merged.imageAspectRatioSet
    imageSize := if specific.imageSizeSet then specific.imageSize
      else merged.imageSize
    imageSizeSet := specific.imageSizeSet || merged.imageSizeSet }

/-- Embedding of `getMergedDefaults` (defaultsStore, lines 285-382). The
entries whose filter matches the model id are selected (an empty filter
matches everything); the common entry (empty filter) is the base, or a
synthetic empty entry timestamped `now` when no common entry matches; the
pattern-specific matches, sorted by creation date, then layer on top field
by field via `mergeSpecific`. Returns `none` when nothing matches. -/
def getMergedDefaults (now : Nat) (entries : List DefaultEntry)
    (modelId : String) : Option DefaultEntry :=
  let matchingEntries := entries.filter (fun e =>
    if e.modelFilter = "" then true else regexTestI e.modelFilter modelId)
  if matchingEntries.isEmpty then none
  else
    let commonDefault := matchingEntries.find? (fun e => e.modelFilter = "")
    let specificDefaults :=
      sortByCreatedAt (matchingEntries.filter (fun e => ¬ e.modelFilter = ""))
    let base : DefaultEntry := match commonDefault with
      | some c => c
      | none =>
        { createdAt := now
          updatedAt := now }
    some (specificDefaults.foldl mergeSpecific base)

/-! ## Image resolution pipeline (`src/lib/session/messageImages.ts`) -/

/-- An attachment as surfaced by the wire protocol: every field optional. -/
structure Attachment where
  name : Option String := none
  url : Option String := none
  mimeType : Option String := none
  dataBase64 : Option String := none
deriving DecidableEq, Repr

/-- Embedding of `isLikelyImageName`: the lowercased name ends in a known
image extension. -/
def isLikelyImageName (name : String) : Bool :=
  let lower := name.toLower
  lower.endsWith ".png" || lower.endsWith ".jpg" || lower.endsWith ".jpeg"
    || lower.endsWith ".webp" || lower.endsWith ".gif"

/-- Embedding of `attachmentToUrl`: prefer the URL; otherwise wrap the
base64 payload as a data URI (reusing it verbatim when it already is one);
otherwise `null`. -/
def attachmentToUrl (a : Attachment) : Option String :=
  match a.url with
  | some u => some u
  | none =>
    match a.dataBase64 with
    | some d =>
        if d.startsWith "data:" then some d
        else some ("data:" ++ (a.mimeType.getD "application/octet-stream")
          ++ ";base64," ++ d)
    | none => none

/-- Embedding of `collectImageUrlsFromAttachments`: keep attachments that
look like images (by MIME type, filename extension, or data-URI prefix) and
turn each into a URL, dropping the ones that yield none. -/
def collectImageUrlsFromAttachments (attachments : List Attachment) :
    List String :=
  (attachments.filter (fun a =>
    (match a.mimeType with
     | some m => m.startsWith "image/"
     | none => false)
    || (match a.name with
        | some n => isLikelyImageName n
        | none => false)
    || (match a.url with
        | some u => u.startsWith "data:image/"
        | none => false))).filterMap attachmentToUrl

/-- Order-preserving deduplication that also drops empty strings, as done by
the `seen`-set loops of `storeImagesFromUrls` and
`resolveAndStoreMessageImages`. -/
def dedupUrls (urls : List String) : List String :=
  (urls.foldl (fun (acc : List String × List String) url =>
    if url = "" then acc
    else if url ∈ acc.2 then acc
    else (acc.1 ++ [url], acc.2 ++ [url])) ([], [])).1

/-- The store of binary image assets, keyed by asset id. The blob contents
are an arbitrary type with decidable equality. -/
abbrev ImageStore (β : Type) := List (String × β)

/-- Embedding of `createStableId`: the id is the prefix, an underscore, and
the digest of the string made of the prefix, a colon and the stable key. The
digest (SHA-256 truncated to 128 bits, hex encoded, in the source) is a
parameter `hash` of the model. -/
def createStableId (hash : String → String) (pre stableKey : String) :
    String :=
  pre ++ "_" ++ hash (pre ++ ":" ++ stableKey)

/-- Embedding of the successful path of `storeRemoteImage` (messageImages,
lines 157-211) as a sequential state transformer: fetch the URL (a model
parameter returning the blob, or `none` for a failed fetch or non-OK
response), derive the id from the URL via `createStableId`, reuse the
already-stored asset under that id if present, otherwise store the blob
under the id. The random-id fallback branch taken only when WebCrypto is
unavailable is not modelled, and the image-dimension probe does not affect
identity. Returns the stored id (or `none`) with the updated store. -/
def storeRemoteImage (hash : String → String) (fetch : String → Option β)
    (st : ImageStore β) (url : String) : Option String × ImageStore β :=
  match fetch url with
  | none => (none, st)
  | some blob =>
    let id := createStableId hash "image" url
    match st.lookup id with
    | some _ => (some id, st)
    | none => (some id, st ++ [(id, blob)])

/-- The state of the in-flight map `inFlightByUrl` together with the log of
URLs for which a network fetch has actually been started. -/
structure InFlight where
  pending : List String := []
  started : List String := []
deriving DecidableEq, Repr

/-- Entry step of `storeRemoteImage` with respect to the in-flight map: a
call whose URL is already pending joins the existing promise (no new fetch);
otherwise the URL is registered and a fetch starts. Returns the new state
and whether a fetch was started by this call. -/
def storeRemoteImageBegin (st : InFlight) (url : String) : InFlight × Bool :=
  if url ∈ st.pending then (st, false)
  else ({ pending := url :: st.pending, started := st.started ++ [url] }, true)

/-- Exit step of `storeRemoteImage`: the `finally` clause removes the URL
from the in-flight map. -/
def storeRemoteImageEnd (st : InFlight) (url : String) : InFlight :=
  { st with pending := st.pending.filter (fun u => u != url) }

/-- The fields of a message that the image pipeline and the run controller
mutate. -/
structure MessageRec where
  contentText : String := ""
  contentReasoning : Option String := none
  contentThinking : Option String := none
  imageIds : List String := []
  status : String := "streaming"
  errorText : Option String := none
deriving DecidableEq, Repr

/-- Embedding of `resolveAndStoreMessageImages` (messageImages, lines
270-310), parameterised by `storeOne`, the result of `storeRemoteImage` for
each URL (id or failure), and by `scanText`, standing for
`collectImageUrlsFromMessageText` (a regex scan of the text for inline
markdown and base64 images; the guard returning nothing for empty text is
part of the source and modelled here). The explicit URL list, the
image-like attachments, and (when `includeText`) the scanned text URLs are
concatenated, deduplicated, stored one by one, and the resulting ids are
appended to the message. The `keepOnlyLast` option is accepted and, as in
the source, never read. Returns the updated message and the new ids. -/
def resolveAndStoreMessageImages
    (scanText : String → List Attachment → List String)
    (storeOne : String → Option String) (msg : MessageRec)
    (imageUrls : List String) (attachments : List Attachment)
    (includeText : Bool) (keepOnlyLast : Bool) : MessageRec × List String :=
  let textUrls := if includeText then
    (if msg.contentText = "" then [] else scanText msg.contentText attachments)
    else []
  let urls := imageUrls ++ collectImageUrlsFromAttachments attachments
    ++ textUrls
  let storedIds := (dedupUrls urls).filterMap storeOne
  let _ := keepOnlyLast
  if storedIds.isEmpty then (msg, storedIds)
  else ({ msg with imageIds := msg.imageIds ++ storedIds }, storedIds)

/-! ## Stream protocol decoder: reasoning and thinking extraction
(`src/lib/openrouter.ts`, lines 506-578) -/

/-- JavaScript truthiness of an optional string: defined and non-empty. -/
def truthy : Option String → Bool
  | some s => !s.isEmpty
  | none => false

/-- The reasoning-related fields of one decoded stream frame, after the
typeof-string probes of the source: the incremental delta fields, the
cumulative choice-level and message-level fields, and the root-level fields
read by `extractReasoning`. Frames carrying a `reasoning_details` array are
outside the modelled fragment (they only feed `extractReasoning`, which the
claims do not exercise through that path). -/
structure RFrame where
  deltaReasoning : Option String := none
  deltaThinking : Option String := none
  choiceReasoning : Option String := none
  choiceThinking : Option String := none
  messageReasoning : Option String := none
  messageThinking : Option String := none
  rootReasoning : Option String := none
  rootThinking : Option String := none
deriving DecidableEq, Repr

/-- JavaScript string disjunction: the first operand when truthy, otherwise
the second. -/
def jsOr (a b : String) : String := if a.isEmpty then b else a

/-- The `extractReasoning` result for a streaming frame of the modelled
fragment: the frame has a one-element choices array and no
`reasoning_details`, so the choice-level field wins when truthy, then the
root-level field (empty string when absent). -/
def extractReasoningR (f : RFrame) : String × String :=
  (jsOr (f.choiceReasoning.getD "") (f.rootReasoning.getD ""),
   jsOr (f.choiceThinking.getD "") (f.rootThinking.getD ""))

/-- The latch state of the decoder across frames. -/
structure RState where
  hasSeenDeltaReasoning : Bool := false
  hasSeenDeltaThinking : Bool := false
deriving DecidableEq, Repr

/-- Per-frame reasoning emission of `streamCompletion` (openrouter, lines
506-578): the latch is raised by a truthy delta field; the message-level
field is read only while the corresponding latch is down; the emitted token
prefers delta, then choice, then message, and is emitted only when truthy;
finally the `extractReasoning` probe emits when truthy and the main token
was falsy. Returns the new state, the reasoning tokens and the thinking
tokens emitted for this frame, in emission order. -/
def stepRFrame (st : RState) (f : RFrame) :
    RState × List String × List String :=
  let hsdR := st.hasSeenDeltaReasoning || truthy f.deltaReasoning
  let hsdT := st.hasSeenDeltaThinking || truthy f.deltaThinking
  let messageReasoning := if hsdR then none else f.messageReasoning
  let messageThinking := if hsdT then none else f.messageThinking
  let reasoningToken :=
    f.deltaReasoning.orElse (fun _ =>
      f.choiceReasoning.orElse (fun _ => messageReasoning))
  let thinkingToken :=
    f.deltaThinking.orElse (fun _ =>
      f.choiceThinking.orElse (fun _ => messageThinking))
  let mainR := if truthy reasoningToken then [reasoningToken.getD ""] else []
  let mainT := if truthy thinkingToken then [thinkingToken.getD ""] else []
  let r := extractReasoningR f
  let rootR := if !r.1.isEmpty && !(truthy reasoningToken) then [r.1] else []
  let rootT := if !r.2.isEmpty && !(truthy thinkingToken) then [r.2] else []
  (⟨hsdR, hsdT⟩, mainR ++ rootR, mainT ++ rootT)

/-- All reasoning and thinking tokens emitted over a list of frames,
threading the latch state. -/
def decodeReasoningAux (st : RState) : List RFrame → List String × List String
  | [] => ([], [])
  | f :: fs =>
    let step := stepRFrame st f
    let rest := decodeReasoningAux step.1 fs
    (step.2.1 ++ rest.1, step.2.2 ++ rest.2)

/-- Reasoning and thinking tokens of a whole stream, from the initial
latch-down state. -/
def decodeReasoning (frames : List RFrame) : List String × List String :=
  decodeReasoningAux {} frames

/-- The latch state reached after processing a list of frames. -/
def rstateAfter (st : RState) : List RFrame → RState
  | [] => st
  | f :: fs => rstateAfter (stepRFrame st f).1 fs

/-! ## Run keys and the active-controller map
(`src/stores/defaultsStore.ts`) -/

/-- Run-key material is modelled as character lists so that the prefix tests
of the source (`key.startsWith` of the model id followed by a dash) have
their usual list semantics. -/
abbrev RunKey := List Char

/-- Worker for the decimal rendering: most-significant digit first, with a
fuel argument for structural termination. -/
def natCharsAux : Nat → Nat → List Char
  | 0, _ => []
  | _ + 1, 0 => []
  | fuel + 1, n + 1 =>
    natCharsAux fuel ((n + 1) / 10) ++ [Nat.digitChar ((n + 1) % 10)]

/-- Decimal rendering of a natural number as characters, matching the
template-literal printing of the run index. -/
def natChars (n : Nat) : List Char :=
  if n = 0 then [Char.ofNat 48] else natCharsAux n n

/-- Rendering of the optional run index inside the template literal:
JavaScript prints the word undefined when the index is absent. -/
def rendRunIndex : Option Nat → List Char
  | some r => natChars r
  | none => "undefined".toList

/-- The run key of the template literal: the model id, a dash, and the
rendered run index. -/
def mkRunKey (modelId : List Char) (runIndex : Option Nat) : RunKey :=
  modelId ++ Char.ofNat 45 :: rendRunIndex runIndex

/-- Registration of a key in the controller map (`Map.prototype.set`): keys
stay unique, an existing key merely has its controller replaced. -/
def setKey (k : RunKey) (l : List RunKey) : List RunKey :=
  if k ∈ l then l else k :: l

/-- Removal of a key from the controller map (`Map.prototype.delete`). -/
def delKey (k : RunKey) (l : List RunKey) : List RunKey :=
  l.filter (fun x => x ≠ k)

/-- The prefix probe used throughout the source to find runs of one model:
the key starts with the model id followed by a dash. -/
def keyHasModelDash (modelId : List Char) (k : RunKey) : Bool :=
  decide ((modelId ++ [Char.ofNat 45]) <+: k)

/-- Result of `abortStream`: the surviving controller keys, the keys whose
controllers were cancelled, and the update (if any) written to the
streaming flag of the model. -/
structure AbortResult where
  ctrls : List RunKey
  cancelled : List RunKey
  flagUpdate : Option Bool
deriving DecidableEq, Repr

/-- Embedding of `abortStream` (defaultsStore, lines 1839-1877). With a run
index: the composite key is looked up; when present its controller is
aborted and deleted, and the streaming flag of the model is set to whether
any remaining key still carries the model-dash prefix; when absent nothing
changes. Without a run index: every key carrying the model-dash prefix is
aborted and deleted and the flag is set to false. -/
def abortStream (ctrls : List RunKey) (modelId : List Char) :
    Option Nat → AbortResult
  | some r =>
    let key := mkRunKey modelId (some r)
    if key ∈ ctrls then
      let rest := delKey key ctrls
      let stillStreaming := rest.any (keyHasModelDash modelId)
      ⟨rest, [key], some stillStreaming⟩
    else ⟨ctrls, [], none⟩
  | none =>
    let toCancel := ctrls.filter (keyHasModelDash modelId)
    ⟨ctrls.filter (fun k => ¬ keyHasModelDash modelId k), toCancel, some false⟩

/-! ## Run controller (`src/stores/defaultsStore.ts`,
`requestCompletionForModel`, lines 973-1827) -/

/-- JavaScript truthiness of `x?.trim()` on an optional string: defined with
non-blank content. -/
def truthyTrim : Option String → Bool
  | some s => !s.trim.isEmpty
  | none => false

/-- The decoder events consumed by the run controller, together with the
stall-timer firing, which is interleaved into the same sequence to model the
event-loop ordering. Usage and request-id events only feed the cost
reconciler and are kept as controller no-ops. -/
inductive StreamEv where
  | token (s : String)
  | reasoningToken (s : String)
  | thinkingToken (s : String)
  | message (imageUrls : List String) (attachments : List Attachment)
  | usage (promptTokens completionTokens cost : Option ℚ)
  | requestId (id : String)
  | decodeError (msg : String)
  | timerFire
  | done
deriving DecidableEq, Repr

/-- The result of the non-streaming fallback request
(`requestCompletionFull`) when it succeeds. -/
structure FallbackResult where
  text : Option String := none
  reasoningField : Option String := none
  thinkingField : Option String := none
  imageUrls : List String := []
  attachments : List Attachment := []
deriving DecidableEq, Repr

/-- The per-run configuration of the controller: the two flags derived from
the matched default, the text scanner and per-URL store results of the
image pipeline, and the outcome the fallback request would produce. -/
structure RunCfg where
  keepOnlyLastImage : Bool := false
  captureReasoningTraces : Bool := true
  scanText : String → List Attachment → List String := fun _ _ => []
  storeOne : String → Option String := fun _ => none
  fallback : Except String FallbackResult := .ok {}

/-- The mutable state of one run: the assistant message under construction,
the one-shot guards, the accumulated image references, and counters
recording how often each terminal branch has executed. -/
structure RunSt where
  msg : MessageRec := {}
  sawOutput : Bool := false
  fallbackRan : Bool := false
  abortForFallback : Bool := false
  pendingImageUrls : List String := []
  pendingAttachments : List Attachment := []
  lastReceivedImageUrl : Option String := none
  finalizeCount : Nat := 0
  errorBranchCount : Nat := 0
  fallbackExecCount : Nat := 0
deriving DecidableEq, Repr

/-- The image-resolution call shared by `onDone` and `runFallback`: with the
keep-only-last policy only the most recent URL is passed (no attachments, no
text scan), otherwise all pending URLs and attachments plus the text scan. -/
def resolveRunImages (cfg : RunCfg) (st : RunSt) : MessageRec × List String :=
  resolveAndStoreMessageImages cfg.scanText cfg.storeOne st.msg
    (if cfg.keepOnlyLastImage then
      (match st.lastReceivedImageUrl with
       | some u => [u]
       | none => [])
      else st.pendingImageUrls)
    (if cfg.keepOnlyLastImage then [] else st.pendingAttachments)
    (!cfg.keepOnlyLastImage) cfg.keepOnlyLastImage

/-- The executing branch of `runFallback` (defaultsStore, lines 1335-1450),
reached only when the latch was down: the non-streaming request is issued
and either replaces the message content, resolves images, recomputes the
no-output check and finalizes, or takes the error branch. -/
def runFallbackExec (cfg : RunCfg) (st : RunSt) : RunSt :=
  match cfg.fallback with
    | .error e =>
      { st with
        msg := { st.msg with status := "error", errorText := some e }
        errorBranchCount := st.errorBranchCount + 1 }
    | .ok r =>
      let m := { st.msg with contentText := r.text.getD "" }
      let m := if cfg.captureReasoningTraces then
          let m := if truthy r.reasoningField then
            { m with contentReasoning := r.reasoningField } else m
          if truthy r.thinkingField then
            { m with contentThinking := r.thinkingField } else m
        else m
      let attUrls := collectImageUrlsFromAttachments r.attachments
      let lastAfterAtts := if !r.attachments.isEmpty && !attUrls.isEmpty
        then attUrls.getLast? else st.lastReceivedImageUrl
      let stMid : RunSt := { st with
        msg := m
        pendingAttachments := if !r.attachments.isEmpty
          then st.pendingAttachments ++ r.attachments
          else st.pendingAttachments
        pendingImageUrls := if !r.imageUrls.isEmpty
          then st.pendingImageUrls ++ r.imageUrls
          else st.pendingImageUrls
        lastReceivedImageUrl := if !r.imageUrls.isEmpty
          then r.imageUrls.getLast? else lastAfterAtts }
      let resolved := resolveRunImages cfg stMid
      let msg2 := resolved.1
      let imagesStored := !resolved.2.isEmpty
      let sawOutput := !msg2.contentText.isEmpty
        || truthyTrim msg2.contentReasoning
        || truthyTrim msg2.contentThinking
        || !msg2.imageIds.isEmpty
        || !stMid.pendingAttachments.isEmpty
        || imagesStored
      let noOutputDiagnostic :=
        "No visible output received (streaming + non-streaming). Try a different model."
      let msg3 := if !sawOutput then
          { msg2 with errorText := some noOutputDiagnostic }
        else msg2
      { stMid with
        msg := { msg3 with status := "complete" }
        sawOutput := sawOutput
        finalizeCount := st.finalizeCount + 1 }

/-- Embedding of `runFallback` (defaultsStore, lines 1332-1451): the
one-shot latch `fallbackRan` makes every call after the first a no-op; the
first call raises the latch, counts the execution and runs
`runFallbackExec`. -/
def runFallback (cfg : RunCfg) (st : RunSt) : RunSt :=
  if st.fallbackRan then st
  else
    runFallbackExec cfg { st with
      fallbackRan := true
      fallbackExecCount := st.fallbackExecCount + 1 }

/-- Embedding of the `onDone` handler (defaultsStore, lines 1615-1803):
resolve the accumulated image references, recompute the no-output check from
text, reasoning, thinking, stored images and attachments, and either run the
fallback (when nothing was observed) or finalize the message. The
generation-endpoint cost lookup and the cost-verification dialog performed
here only feed the cost reconciler and change neither the message nor the
branch choice, so they are not part of this state. -/
def handleDone (cfg : RunCfg) (st : RunSt) : RunSt :=
  let resolved := resolveRunImages cfg st
  let st := { st with msg := resolved.1 }
  let imagesStored := !resolved.2.isEmpty
  let hasText := !st.msg.contentText.isEmpty
  let hasReasoning := truthyTrim st.msg.contentReasoning
  let hasThinking := truthyTrim st.msg.contentThinking
  let hasImages := !st.msg.imageIds.isEmpty
  let hasAttachments := !st.pendingAttachments.isEmpty
  let sawOutput := st.sawOutput || hasText || hasReasoning || hasThinking
    || hasImages || hasAttachments || imagesStored
  let st := { st with sawOutput := sawOutput }
  if !sawOutput then runFallback cfg st
  else
    { st with
      msg := { st.msg with status := "complete" }
      finalizeCount := st.finalizeCount + 1 }

/-- One controller step for a non-terminal event, mirroring the stream
callbacks of `requestCompletionForModel`: tokens append to the text and set
the output flag; reasoning and thinking tokens set the flag and append only
when traces are captured; message events accumulate attachments and image
URLs (skipping the accumulation under the keep-only-last policy while still
tracking the most recent URL); decode errors mark the message as an error
unless the stall path is aborting; the stall timer, when neither output nor
a fallback has been seen, aborts the transport and runs the fallback. -/
def stepEv (cfg : RunCfg) (st : RunSt) : StreamEv → RunSt
  | .token s =>
    { st with
      sawOutput := true
      msg := { st.msg with contentText := st.msg.contentText ++ s } }
  | .reasoningToken s =>
    let st := { st with sawOutput := true }
    if cfg.captureReasoningTraces then
      { st with msg := { st.msg with
        contentReasoning := some ((st.msg.contentReasoning.getD "") ++ s) } }
    else st
  | .thinkingToken s =>
    let st := { st with sawOutput := true }
    if cfg.captureReasoningTraces then
      { st with msg := { st.msg with
        contentThinking := some ((st.msg.contentThinking.getD "") ++ s) } }
    else st
  | .message urls atts =>
    let attUrls := collectImageUrlsFromAttachments atts
    let lastAfterAtts := if !atts.isEmpty && !attUrls.isEmpty
      then attUrls.getLast? else st.lastReceivedImageUrl
    { st with
      pendingAttachments := if !atts.isEmpty && !cfg.keepOnlyLastImage
        then st.pendingAttachments ++ atts else st.pendingAttachments
      pendingImageUrls := if !urls.isEmpty && !cfg.keepOnlyLastImage
        then st.pendingImageUrls ++ urls else st.pendingImageUrls
      lastReceivedImageUrl := if !urls.isEmpty
        then urls.getLast? else lastAfterAtts
      sawOutput := st.sawOutput || !atts.isEmpty || !urls.isEmpty }
  | .usage _ _ _ => st
  | .requestId _ => st
  | .decodeError e =>
    if st.abortForFallback then st
    else
      { st with
        msg := { st.msg with status := "error", errorText := some e }
        errorBranchCount := st.errorBranchCount + 1 }
  | .timerFire =>
    if st.sawOutput || st.fallbackRan then st
    else runFallback cfg { st with abortForFallback := true }
  | .done => st

/-- Processing of the event sequence of one run: events are handled in
order; the done event invokes `handleDone` and ends the stream (the source
returns from the read loop at the sentinel). -/
def runEvents (cfg : RunCfg) (st : RunSt) : List StreamEv → RunSt
  | [] => st
  | e :: es =>
    match e with
    | .done => handleDone cfg st
    | _ => runEvents cfg (stepEv cfg st e) es

/-- How the awaited `streamCompletion` call ends: normally, or by a thrown
error (transport failure or the abort triggered by the stall timer). -/
inductive EndKind where
  | clean
  | thrown (msg : String)
deriving DecidableEq, Repr

/-- The catch block of `requestCompletionForModel`: a thrown stream is
ignored when the stall path caused the abort, and otherwise takes the error
branch. -/
def finishRun (st : RunSt) : EndKind → RunSt
  | .clean => st
  | .thrown e =>
    if st.abortForFallback then st
    else
      { st with
        msg := { st.msg with status := "error", errorText := some e }
        errorBranchCount := st.errorBranchCount + 1 }

/-- Embedding of the lifecycle of `requestCompletionForModel` around one
run: the controller key is registered, the stream events are processed, the
catch block runs for a thrown stream, and the `finally` block always removes
the run key from the controller map. -/
def requestCompletionForModel (cfg : RunCfg) (ctrls : List RunKey)
    (key : RunKey) (events : List StreamEv) (ek : EndKind) :
    RunSt × List RunKey :=
  let cs := setKey key ctrls
  let st := finishRun (runEvents cfg {} events) ek
  (st, delKey key cs)

/-! ## Secondary generation-cost lookup
(`src/lib/openrouter.ts`, `fetchGenerationCost`, lines 68-136) -/

/-- Usage as reported by the generation endpoint. -/
structure UsageRec where
  promptTokens : Option ℚ := none
  completionTokens : Option ℚ := none
  cost : Option ℚ := none
deriving DecidableEq, Repr

/-- The outcome of one fetch of the generation endpoint: an OK response
whose body parses (carrying the usage of the first generation, possibly
absent), an OK response whose body fails to parse, a non-OK HTTP status, or
a network failure that rejects the fetch itself. -/
inductive FetchOutcome where
  | ok (usage : Option UsageRec)
  | okBadJson
  | httpStatus (status : Nat)
  | netThrow
deriving DecidableEq, Repr

/-- The observable run of `fetchGenerationCost`: its return value, whether
an exception escaped the body (before the surrounding catch), the sleeps
performed in milliseconds, and the number of requests issued. -/
structure FgcRun where
  result : Option UsageRec := none
  raised : Bool := false
  delays : List Nat := []
  fetches : Nat := 0
deriving DecidableEq, Repr

/-- The retry loop of `fetchGenerationCost` over the remaining attempt
numbers: every attempt after the first sleeps its exponential-backoff delay
first, then fetches; an OK response returns its usage (or null), a parse
failure or rejected fetch escapes as an exception, a 404 with retries left
continues, and any other non-OK status returns null.  An exhausted loop
returns null. -/
def fgcAttempts (responses : Nat → FetchOutcome) (maxRetries : Nat) :
    List Nat → FgcRun → FgcRun
  | [], acc => { acc with result := none }
  | attempt :: rest, acc =>
    let acc := { acc with
      delays := if attempt > 0 then
          acc.delays ++ [1000 * 2 ^ (attempt - 1)]
        else acc.delays
      fetches := acc.fetches + 1 }
    match responses attempt with
    | .netThrow => { acc with raised := true }
    | .okBadJson => { acc with raised := true }
    | .ok usage => { acc with result := usage }
    | .httpStatus s =>
      if s = 404 ∧ attempt < maxRetries then
        fgcAttempts responses maxRetries rest acc
      else { acc with result := none }

/-- The body of `fetchGenerationCost` inside the try block: when 404-retry
is enabled the body first sleeps 250 milliseconds and allows three retries,
otherwise none; then the attempt loop runs. -/
def fgcBody (responses : Nat → FetchOutcome) (retryOn404 : Bool) : FgcRun :=
  let initialDelays := if retryOn404 then [250] else []
  let maxRetries := if retryOn404 then 3 else 0
  fgcAttempts responses maxRetries (List.range (maxRetries + 1))
    { delays := initialDelays }

/-- Embedding of `fetchGenerationCost`: the whole body is wrapped in a catch
that converts any escaped exception into a null result, so the function
never throws. -/
def fetchGenerationCost (responses : Nat → FetchOutcome)
    (retryOn404 : Bool) : FgcRun :=
  let r := fgcBody responses retryOn404
  if r.raised then { r with result := none, raised := false } else r

/-! ## Message store and the re-run operation
(`src/lib/idb.ts` and `src/stores/defaultsStore.ts`) -/

/-- A persisted message, restricted to the fields the deletion logic
reads. -/
structure StoredMessage where
  id : String
  role : String := "assistant"
  contentText : String := ""
  createdAt : Nat := 0
  runIndex : Option Nat := none
deriving DecidableEq, Repr

/-- Embedding of `getMessages` for one (session, model) pair: the stored
messages sorted by creation time (stable). -/
def getMessages (store : List StoredMessage) : List StoredMessage :=
  sortByKey (fun m => m.createdAt) store

/-- Embedding of `deleteMessage`: remove the message with the given id. -/
def deleteMessage (store : List StoredMessage) (messageId : String) :
    List StoredMessage :=
  store.filter (fun m => m.id ≠ messageId)

/-- Embedding of `deleteMessagesAfter` (idb, lines 620-648): read the
messages in order, locate the anchor id, take the messages strictly after
it (restricted to one run when a run index is given) and delete exactly
those; an unknown anchor deletes nothing. The anchor message itself is
never deleted. -/
def deleteMessagesAfter (store : List StoredMessage) (messageId : String)
    (runIndex : Option Nat) : List StoredMessage :=
  let messages := getMessages store
  match messages.findIdx? (fun m => m.id = messageId) with
  | none => store
  | some index =>
    let messagesAfter := messages.drop (index + 1)
    let toDelete : List StoredMessage := match runIndex with
      | some r => messagesAfter.filter (fun m => m.runIndex = some r)
      | none => messagesAfter
    store.filter (fun m =>
      ¬ (toDelete.map (fun d => d.id)).contains m.id)

/-- The deletion phase of `rerunLastAssistantMessage` (defaultsStore, lines
1901-1940): find the most recent assistant message in the UI list of the
model; when a message follows it, delete exactly that assistant message;
when it is the last message, call `deleteMessagesAfter` anchored at it (with
no run index). The subsequent re-invocation of the completion controller is
outside this function. -/
def rerunDeletePhase (messages store : List StoredMessage) :
    List StoredMessage :=
  if messages.isEmpty then store
  else
    match messages.reverse.findIdx? (fun m => m.role = "assistant") with
    | none => store
    | some j =>
      let lastAssistantIndex := messages.length - 1 - j
      match messages.get? lastAssistantIndex with
      | none => store
      | some lastAssistantMessage =>
        let hasMessageAfter := lastAssistantIndex < messages.length - 1
        if hasMessageAfter then deleteMessage store lastAssistantMessage.id
        else deleteMessagesAfter store lastAssistantMessage.id none

/-- Events that constitute observed output for the run controller: text,
reasoning and thinking tokens, and message events (images or
attachments). -/
def isOutputEv : StreamEv → Bool
  | .token _ => true
  | .reasoningToken _ => true
  | .thinkingToken _ => true
  | .message _ _ => true
  | _ => false

/-- A run state in which nothing has been observed: no output flag, empty
message content, and no accumulated image references. -/
def QuietSt (st : RunSt) : Prop :=
  st.sawOutput = false ∧ st.msg.contentText = "" ∧
  st.msg.contentReasoning = none ∧ st.msg.contentThinking = none ∧
  st.msg.imageIds = [] ∧ st.pendingImageUrls = [] ∧
  st.pendingAttachments = [] ∧ st.lastReceivedImageUrl = none

/-- The invariant backing the one-shot fallback guarantee: the execution
counter agrees with the latch, and while the latch is down the run is still
quiet. -/
def OnceInv (st : RunSt) : Prop :=
  st.fallbackExecCount = (if st.fallbackRan then 1 else 0) ∧
  (st.fallbackRan = false → QuietSt st)

/-- The invariant backing the terminal analysis of one run: the abort
marker is only ever raised together with the fallback latch, and once the
fallback has run the message status is terminal (complete or error). -/
def AbortInv (st : RunSt) : Prop :=
  (st.abortForFallback = true → st.fallbackRan = true) ∧
  (st.fallbackRan = true →
    st.msg.status = "complete" ∨ st.msg.status = "error")

/-! ## Claim theorems -/

/-- Claim C3, counterexample: with the pricing table exactly as written in
the claim — per-token prices prompt 0.000003 and completion 0.000006 and
nothing else — `calculateModelCostUsd` returns null (the absent request and
image prices fail `toFiniteNumber`), not the cost 0.0006 the claim
states. -/
theorem c3_cost_counterexample :
    calculateModelCostUsd
      (some { prompt := .num (3 / 1000000), completion := .num (6 / 1000000) })
      100 50 0 = none ∧
    (none : Option ℚ) ≠ some (6 / 10000) := by
  constructor
  · rfl
  · simp

/-- Claim C3, amended: provided the pricing table also carries finite
request and per-image prices, the estimator follows the formula token-rate
times count plus flat request price plus per-image price; in particular with
prompt 0.000003, completion 0.000006, request 0 and image 0, usage
promptTokens 100 and completionTokens 50 yields exactly 0.0006. -/
theorem c3_cost_amended :
    (∀ pp cp rp ip pt ct oi : ℚ,
      calculateModelCostUsd
        (some { prompt := .num pp, completion := .num cp,
                request := .num rp, image := .num ip }) pt ct oi
        = some (pt * pp + ct * cp + rp + oi * ip)) ∧
    calculateModelCostUsd
      (some { prompt := .num (3 / 1000000), completion := .num (6 / 1000000),
              request := .num 0, image := .num 0 })
      100 50 0 = some (6 / 10000) := by
  refine ⟨fun pp cp rp ip pt ct oi => rfl, ?_⟩
  norm_num [calculateModelCostUsd, toFiniteNumber]

/-- Claim C7: evaluation of the re-run deletion phase at the failing input.
With the message list ending in the assistant message (a user turn then the
assistant reply), the code takes the `deleteMessagesAfter` branch, which
deletes only messages strictly after the anchor — here none — so the most
recent assistant message survives in storage, contradicting the claim (and
the inline comment of the source) that it is deleted before re-invoking the
controller. -/
theorem c7_rerun_keeps_last_assistant :
    rerunDeletePhase
      [{ id := "m1", role := "user", createdAt := 1 },
       { id := "m2", role := "assistant", createdAt := 2 }]
      [{ id := "m1", role := "user", createdAt := 1 },
       { id := "m2", role := "assistant", createdAt := 2 }]
    = [{ id := "m1", role := "user", createdAt := 1 },
       { id := "m2", role := "assistant", createdAt := 2 }] ∧
    ({ id := "m2", role := "assistant", createdAt := 2 } : StoredMessage)
      ∈ rerunDeletePhase
        [{ id := "m1", role := "user", createdAt := 1 },
         { id := "m2", role := "assistant", createdAt := 2 }]
        [{ id := "m1", role := "user", createdAt := 1 },
         { id := "m2", role := "assistant", createdAt := 2 }] := by
  constructor
  · rfl
  · decide

/-- Splitting a decoder run at a list boundary: the outputs are the
outputs of the first part followed by the outputs of the second part run
from the intermediate latch state. -/
theorem decodeReasoningAux_append (st : RState) (l1 l2 : List RFrame) :
    decodeReasoningAux st (l1 ++ l2)
      = ((decodeReasoningAux st l1).1
          ++ (decodeReasoningAux (rstateAfter st l1) l2).1,
        (decodeReasoningAux st l1).2
          ++ (decodeReasoningAux (rstateAfter st l1) l2).2) := by
  induction l1 generalizing st with
  | nil => simp [decodeReasoningAux, rstateAfter]
  | cons f fs ih =>
      simp [decodeReasoningAux, rstateAfter, ih, List.append_assoc]

/-- The reasoning latch is monotone: once raised it stays raised. -/
theorem rstateAfter_mono_reasoning (l : List RFrame) (st : RState)
    (h : st.hasSeenDeltaReasoning = true) :
    (rstateAfter st l).hasSeenDeltaReasoning = true := by
  induction l generalizing st with
  | nil => simpa [rstateAfter]
  | cons f fs ih => exact ih _ (by simp [stepRFrame, h])

/-- The thinking latch is monotone: once raised it stays raised. -/
theorem rstateAfter_mono_thinking (l : List RFrame) (st : RState)
    (h : st.hasSeenDeltaThinking = true) :
    (rstateAfter st l).hasSeenDeltaThinking = true := by
  induction l generalizing st with
  | nil => simpa [rstateAfter]
  | cons f fs ih => exact ih _ (by simp [stepRFrame, h])

/-- A truthy delta-reasoning field anywhere in the prefix raises the
reasoning latch. -/
theorem rstateAfter_reasoning_of_mem (l : List RFrame) (st : RState)
    (h : ∃ g ∈ l, truthy g.deltaReasoning = true) :
    (rstateAfter st l).hasSeenDeltaReasoning = true := by
  induction l generalizing st with
  | nil => simp at h
  | cons f fs ih =>
      rcases h with ⟨g, hg, hgt⟩
      rcases List.mem_cons.mp hg with hgf | hgfs
      · subst hgf
        exact rstateAfter_mono_reasoning fs _ (by simp [stepRFrame, hgt])
      · exact ih _ ⟨g, hgfs, hgt⟩

/-- A truthy delta-thinking field anywhere in the prefix raises the
thinking latch. -/
theorem rstateAfter_thinking_of_mem (l : List RFrame) (st : RState)
    (h : ∃ g ∈ l, truthy g.deltaThinking = true) :
    (rstateAfter st l).hasSeenDeltaThinking = true := by
  induction l generalizing st with
  | nil => simp at h
  | cons f fs ih =>
      rcases h with ⟨g, hg, hgt⟩
      rcases List.mem_cons.mp hg with hgf | hgfs
      · subst hgf
        exact rstateAfter_mono_thinking fs _ (by simp [stepRFrame, hgt])
      · exact ih _ ⟨g, hgfs, hgt⟩

/-- With the reasoning latch raised, a frame step never reads the
message-level reasoning field. -/
theorem stepRFrame_ignores_messageReasoning (st : RState) (f : RFrame)
    (h : st.hasSeenDeltaReasoning = true) :
    stepRFrame st f = stepRFrame st { f with messageReasoning := none } := by
  simp [stepRFrame, extractReasoningR, h]

/-- With the thinking latch raised, a frame step never reads the
message-level thinking field. -/
theorem stepRFrame_ignores_messageThinking (st : RState) (f : RFrame)
    (h : st.hasSeenDeltaThinking = true) :
    stepRFrame st f = stepRFrame st { f with messageThinking := none } := by
  simp [stepRFrame, extractReasoningR, h]

/-- Claim C6, counterexample: after a frame carrying delta-level reasoning
(latch raised), a later frame carrying only choice-level cumulative
reasoning still has that reasoning emitted — the second token b below —
whereas the claim asserts choice-level cumulative sources are suppressed for
the remainder of the stream (which would leave only the token a). -/
theorem c6_choice_reasoning_not_suppressed :
    (decodeReasoning
      [{ deltaReasoning := some "a" }, { choiceReasoning := some "b" }]).1
      = ["a", "b"] ∧
    "b" ∈ (decodeReasoning
      [{ deltaReasoning := some "a" }, { choiceReasoning := some "b" }]).1 := by
  constructor
  · rfl
  · decide

/-- Claim C6, amended: once a delta-level reasoning (respectively thinking)
field has been observed in some frame, the message-level cumulative
reasoning (respectively thinking) of every later frame is ignored for the
remainder of the stream; choice-level (and root-level) cumulative fields are
not suppressed by the latch. -/
theorem c6_message_reasoning_suppressed :
    (∀ (pre post : List RFrame) (f : RFrame),
      (∃ g ∈ pre, truthy g.deltaReasoning = true) →
      decodeReasoning (pre ++ f :: post)
        = decodeReasoning (pre ++ ({ f with messageReasoning := none }) :: post)) ∧
    (∀ (pre post : List RFrame) (f : RFrame),
      (∃ g ∈ pre, truthy g.deltaThinking = true) →
      decodeReasoning (pre ++ f :: post)
        = decodeReasoning (pre ++ ({ f with messageThinking := none }) :: post)) := by
  constructor
  · intro pre post f h
    have hlatch := rstateAfter_reasoning_of_mem pre ({} : RState) h
    unfold decodeReasoning
    rw [decodeReasoningAux_append, decodeReasoningAux_append]
    have hstep := stepRFrame_ignores_messageReasoning (rstateAfter {} pre) f hlatch
    simp [decodeReasoningAux, hstep]
  · intro pre post f h
    have hlatch := rstateAfter_thinking_of_mem pre ({} : RState) h
    unfold decodeReasoning
    rw [decodeReasoningAux_append, decodeReasoningAux_append]
    have hstep := stepRFrame_ignores_messageThinking (rstateAfter {} pre) f hlatch
    simp [decodeReasoningAux, hstep]

/-- Witness for the amended claim C6 at a concrete stream: a delta-reasoning
frame, then a frame whose message-level reasoning and thinking are dropped
without changing the emitted tokens. -/
theorem c6_message_reasoning_suppressed_witness :
    decodeReasoning
      [{ deltaReasoning := some "a", deltaThinking := some "t" },
       ({ messageReasoning := some "x", messageThinking := some "y" } : RFrame)]
      = decodeReasoning
      [{ deltaReasoning := some "a", deltaThinking := some "t" },
       ({ messageReasoning := none, messageThinking := some "y" } : RFrame)] :=
  c6_message_reasoning_suppressed.1
    [{ deltaReasoning := some "a", deltaThinking := some "t" }] []
    { messageReasoning := some "x", messageThinking := some "y" }
    ⟨{ deltaReasoning := some "a", deltaThinking := some "t" }, by decide, by decide⟩

/-- Claim C4, counterexample: the stored identifier is derived from the
source URL, not from the fetched bytes — `storeRemoteImage` hashes the
string image colon URL. With a collision-free digest (here the identity
function on the keyed string, standing in for the truncated SHA-256, which
is collision-free on these inputs by design intent), two fetches of
identical bytes from two different URLs create two distinct assets with two
distinct identifiers instead of reusing one. -/
theorem c4_not_content_stable :
    (storeRemoteImage (fun s => s) (fun _ => some "SAMEBYTES")
      (storeRemoteImage (fun s => s) (fun _ => some "SAMEBYTES")
        ([] : ImageStore String) "https://a.example/img").2
      "https://b.example/img").2.length = 2 ∧
    (storeRemoteImage (fun s => s) (fun _ => some "SAMEBYTES")
      ([] : ImageStore String) "https://a.example/img").1
    ≠ (storeRemoteImage (fun s => s) (fun _ => some "SAMEBYTES")
      (storeRemoteImage (fun s => s) (fun _ => some "SAMEBYTES")
        ([] : ImageStore String) "https://a.example/img").2
      "https://b.example/img").1 := by
  constructor
  · rfl
  · decide

/-- Lookup in an association list extended on the right: a key absent from
the front part finds the appended binding. -/
theorem lookup_append_single {β : Type} (l : List (String × β)) (k : String)
    (b : β) (h : l.lookup k = none) :
    (l ++ [(k, b)]).lookup k = some b := by
  induction l with
  | nil => simp [List.lookup]
  | cons p ps ih =>
      rw [List.cons_append, List.lookup_cons]
      rw [List.lookup_cons] at h
      by_cases hk : k == p.1
      · simp [hk] at h
      · simp only [hk, Bool.false_eq_true, if_false] at h ⊢
        exact ih h

/-- Claim C4, amended: the stored identifier is URL-stable rather than
content-stable. First conjunct: a second fetch of the same URL — even
through a different fetch oracle that may return different bytes — reuses
the stored asset: the same identifier comes back and the store is
unchanged. Second conjunct: identical bytes fetched from two URLs whose
URL-keyed identifiers differ (as they do under any collision-free digest)
are stored as two distinct assets with distinct identifiers. Third and
fourth conjuncts: the in-flight map collapses concurrent fetches of one
URL — a second overlapping call for the same URL joins the pending promise
and starts no new fetch — and the final clause removes the URL from the map
again. -/
theorem c4_url_stable_inflight {β : Type} (hash : String → String)
    (fetch1 fetch2 : String → Option β) (st st1 : ImageStore β)
    (url u1 u2 : String) (id1 : String) (b : β) (inflight : InFlight)
    (hrun : storeRemoteImage hash fetch1 st url = (some id1, st1))
    (hfetch2 : fetch2 url ≠ none)
    (hb1 : fetch1 u1 = some b) (hb2 : fetch1 u2 = some b)
    (hne : createStableId hash "image" u1 ≠ createStableId hash "image" u2)
    (hpending : url ∉ inflight.pending) :
    (storeRemoteImage hash fetch2 st1 url = (some id1, st1)) ∧
    ((storeRemoteImage hash fetch1
        (storeRemoteImage hash fetch1 ([] : ImageStore β) u1).2 u2).2.length
        = 2 ∧
      (storeRemoteImage hash fetch1 ([] : ImageStore β) u1).1
        ≠ (storeRemoteImage hash fetch1
            (storeRemoteImage hash fetch1 ([] : ImageStore β) u1).2 u2).1) ∧
    (storeRemoteImageBegin
        (storeRemoteImageBegin inflight url).1 url
      = ((storeRemoteImageBegin inflight url).1, false)) ∧
    url ∉ (storeRemoteImageEnd
        (storeRemoteImageBegin inflight url).1 url).pending := by
  refine ⟨?_, ⟨?_, ?_⟩, ?_, ?_⟩
  · unfold storeRemoteImage at hrun ⊢
    rcases hf2 : fetch2 url with _ | b2
    · exact absurd hf2 hfetch2
    rcases hf1 : fetch1 url with _ | b1
    · rw [hf1] at hrun
      simp at hrun
    rw [hf1] at hrun
    dsimp only at hrun ⊢
    rcases hlook : List.lookup (createStableId hash "image" url) st
      with _ | prev
    · rw [hlook] at hrun
      simp only [Prod.mk.injEq, Option.some.injEq] at hrun
      obtain ⟨hid, hst⟩ := hrun
      subst hid
      rw [← hst, lookup_append_single st _ b1 hlook]
    · rw [hlook] at hrun
      simp only [Prod.mk.injEq, Option.some.injEq] at hrun
      obtain ⟨hid, hst⟩ := hrun
      subst hid
      subst hst
      rw [hlook]
  · simp [storeRemoteImage, hb1, hb2, List.lookup, hne,
      beq_false_of_ne (Ne.symm hne)]
  · simp [storeRemoteImage, hb1, hb2, List.lookup,
      beq_false_of_ne (Ne.symm hne)]
    exact hne
  · simp [storeRemoteImageBegin, hpending]
  · simp [storeRemoteImageBegin, storeRemoteImageEnd, hpending]


/-- Witness for the amended claim C4 at concrete inputs: a reused asset on a
second fetch of URL ua, two assets for identical bytes from URLs u1 and u2,
and the collapsed double-begin on the in-flight map. -/
theorem c4_url_stable_inflight_witness :
    (storeRemoteImage (fun s => s) (fun _ => some "B2")
        [("image_image:ua", "B")] "ua"
      = (some "image_image:ua", [("image_image:ua", "B")])) ∧
    ((storeRemoteImage (fun s => s) (fun _ => some "B")
        (storeRemoteImage (fun s => s) (fun _ => some "B")
          ([] : ImageStore String) "u1").2 "u2").2.length = 2 ∧
      (storeRemoteImage (fun s => s) (fun _ => some "B")
          ([] : ImageStore String) "u1").1
        ≠ (storeRemoteImage (fun s => s) (fun _ => some "B")
            (storeRemoteImage (fun s => s) (fun _ => some "B")
              ([] : ImageStore String) "u1").2 "u2").1) ∧
    (storeRemoteImageBegin (storeRemoteImageBegin {} "ua").1 "ua"
      = ((storeRemoteImageBegin {} "ua").1, false)) ∧
    "ua" ∉ (storeRemoteImageEnd
        (storeRemoteImageBegin {} "ua").1 "ua").pending :=
  c4_url_stable_inflight (fun s => s) (fun _ => some "B") (fun _ => some "B2")
    [] [("image_image:ua", "B")] "ua" "u1" "u2" "image_image:ua" "B" {}
    (by decide) (by decide) rfl rfl (by decide) (by decide)

/-- The pattern of the C5 scenario matches the model id of the C5
scenario. -/
theorem regex_anthropic_opus :
    regexTestI "^anthropic/" "anthropic/claude-3-opus" = true := by decide

/-- A specific entry with the temperature flag set overrides the merged
temperature. -/
theorem mergeSpecific_temperature (m s : DefaultEntry)
    (h : s.temperatureSet = true) :
    (mergeSpecific m s).temperature = s.temperature := by
  simp [mergeSpecific, h]

/-- A specific entry with the output-format flag unset leaves the merged
output format alone. -/
theorem mergeSpecific_outputFormat (m s : DefaultEntry)
    (h : s.outputFormatSet = false) :
    (mergeSpecific m s).outputFormat = m.outputFormat := by
  simp [mergeSpecific, h]

/-- Claim C5: merging the defaults for model id anthropic/claude-3-opus from
a common entry (empty pattern) and a pattern entry caret-anthropic-slash
that sets only the temperature (0.2 in the claim, any value here) yields a
merged entry whose temperature is the pattern entry value, while the output
format — unset on the pattern entry — keeps the common entry value; the
merge is field-by-field, overriding only when the is-set flag is true. -/
theorem c5_merged_defaults (now : Nat) (c s : DefaultEntry) (t : ℚ)
    (hc : c.modelFilter = "") (hs : s.modelFilter = "^anthropic/")
    (ht : s.temperatureSet = true) (htv : s.temperature = some t)
    (hof : s.outputFormatSet = false) :
    ∃ m, getMergedDefaults now [c, s] "anthropic/claude-3-opus" = some m
      ∧ m.temperature = some t ∧ m.outputFormat = c.outputFormat := by
  refine ⟨mergeSpecific c s, ?_, ?_, ?_⟩
  · simp [getMergedDefaults, hc, hs, regex_anthropic_opus, sortByCreatedAt,
      sortByKey, insertByKey]
  · rw [mergeSpecific_temperature c s ht, htv]
  · exact mergeSpecific_outputFormat c s hof

/-- Witness for claim C5 at a concrete pair of entries: the common entry
carries output format png, the anthropic pattern entry sets only the
temperature 0.2. -/
theorem c5_merged_defaults_witness :
    ∃ m, getMergedDefaults 7
      [{
         id := "common-default"
         modelFilter := ""
         outputFormat := some "png"
         outputFormatSet := true },
       {
         id := "anthropic-entry"
         modelFilter := "^anthropic/"
         temperature := some (1 / 5)
         temperatureSet := true }]
      "anthropic/claude-3-opus" = some m
      ∧ m.temperature = some (1 / 5)
      ∧ m.outputFormat = ({
          id := "common-default"
          modelFilter := ""
          outputFormat := some "png"
          outputFormatSet := true } : DefaultEntry).outputFormat :=
  c5_merged_defaults 7
    {
      id := "common-default"
      modelFilter := ""
      outputFormat := some "png"
      outputFormatSet := true }
    {
      id := "anthropic-entry"
      modelFilter := "^anthropic/"
      temperature := some (1 / 5)
      temperatureSet := true }
    (1 / 5) rfl rfl rfl rfl rfl

/-- The attempt loop issues at most one request per remaining attempt. -/
theorem fgcAttempts_fetches_le (responses : Nat → FetchOutcome)
    (maxRetries : Nat) (l : List Nat) (acc : FgcRun) :
    (fgcAttempts responses maxRetries l acc).fetches
      ≤ acc.fetches + l.length := by
  induction l generalizing acc with
  | nil => simp [fgcAttempts]
  | cons attempt rest ih =>
      unfold fgcAttempts
      rcases hresp : responses attempt with u | _ | s | _ <;>
        dsimp only <;> simp only [List.length_cons]
      case ok => omega
      case okBadJson => omega
      case netThrow => omega
      case httpStatus =>
        split
        · exact le_trans (ih _) (by dsimp only; omega)
        · dsimp only
          omega

/-- Claim C10: the secondary generation-cost lookup is total over its error
cases. First conjunct: the function never throws (the catch absorbs every
escaped exception). Second: whenever the body escapes with an exception —
network failure or a JSON parse failure — the result is null. Third: at
most four requests are issued with 404-retry enabled and at most one
without. Fourth: with retry enabled, an endpoint that keeps returning 404
is fetched exactly 4 times, sleeping 250 then 1000 then 2000 then 4000
milliseconds, and yields null. Fifth: an OK first response returns its
usage. Sixth: a non-OK first status other than 404 yields null after a
single request. Seventh: a network failure or parse failure on the first
attempt yields null. -/
theorem c10_fetchGenerationCost_total :
    (∀ responses retry,
      (fetchGenerationCost responses retry).raised = false) ∧
    (∀ responses retry, (fgcBody responses retry).raised = true →
      (fetchGenerationCost responses retry).result = none) ∧
    (∀ responses retry,
      (fetchGenerationCost responses retry).fetches
        ≤ if retry then 4 else 1) ∧
    (fetchGenerationCost (fun _ => .httpStatus 404) true
      = { result := none, raised := false
          delays := [250, 1000, 2000, 4000], fetches := 4 }) ∧
    (∀ responses retry u, responses 0 = .ok u →
      (fetchGenerationCost responses retry).result = u) ∧
    (∀ responses retry s, s ≠ 404 → responses 0 = .httpStatus s →
      (fetchGenerationCost responses retry).result = none ∧
      (fetchGenerationCost responses retry).fetches = 1) ∧
    (∀ responses retry,
      responses 0 = FetchOutcome.netThrow ∨
        responses 0 = FetchOutcome.okBadJson →
      (fetchGenerationCost responses retry).result = none) := by
  have hnever : ∀ responses retry,
      (fetchGenerationCost responses retry).raised = false := by
    intro responses retry
    unfold fetchGenerationCost
    dsimp only
    split <;> simp_all
  have hraised : ∀ responses retry, (fgcBody responses retry).raised = true →
      (fetchGenerationCost responses retry).result = none := by
    intro responses retry h
    unfold fetchGenerationCost
    dsimp only
    rw [if_pos h]
  refine ⟨hnever, hraised, ?_, ?_, ?_, ?_, ?_⟩
  · intro responses retry
    have hbody : (fgcBody responses retry).fetches
        ≤ if retry then 4 else 1 := by
      unfold fgcBody
      cases retry <;>
        simpa using fgcAttempts_fetches_le responses _ _ _
    unfold fetchGenerationCost
    dsimp only
    split <;> simpa using hbody
  · decide
  · intro responses retry u h
    cases retry <;>
      simp [fetchGenerationCost, fgcBody,
        show List.range 4 = [0, 1, 2, 3] from rfl,
        show List.range 1 = [0] from rfl, fgcAttempts, h]
  · intro responses retry s hs h
    cases retry <;>
      constructor <;>
        simp [fetchGenerationCost, fgcBody,
          show List.range 4 = [0, 1, 2, 3] from rfl,
          show List.range 1 = [0] from rfl, fgcAttempts, h, hs]
  · intro responses retry h
    rcases h with h | h <;>
      exact hraised responses retry (by
        cases retry <;>
          simp [fgcBody, show List.range 4 = [0, 1, 2, 3] from rfl,
            show List.range 1 = [0] from rfl, fgcAttempts, h])

/-- Witness for claim C10 at concrete oracles: an always-OK endpoint
returns the usage, an always-500 endpoint yields null after one request,
and an endpoint whose fetch rejects yields null. -/
theorem c10_fetchGenerationCost_total_witness :
    (fetchGenerationCost
        (fun _ => .ok (some { cost := some (1 / 100) })) true).result
      = some { cost := some (1 / 100) } ∧
    (fetchGenerationCost (fun _ => .httpStatus 500) true).result = none ∧
    (fetchGenerationCost (fun _ => .httpStatus 500) true).fetches = 1 ∧
    (fetchGenerationCost (fun _ => .netThrow) true).result = none :=
  ⟨c10_fetchGenerationCost_total.2.2.2.2.1
      (fun _ => .ok (some { cost := some (1 / 100) })) true
      (some { cost := some (1 / 100) }) rfl,
    (c10_fetchGenerationCost_total.2.2.2.2.2.1
      (fun _ => .httpStatus 500) true 500 (by decide) rfl).1,
    (c10_fetchGenerationCost_total.2.2.2.2.2.1
      (fun _ => .httpStatus 500) true 500 (by decide) rfl).2,
    c10_fetchGenerationCost_total.2.2.2.2.2.2
      (fun _ => .netThrow) true (Or.inl rfl)⟩

/-- Claim C2, counterexample: with the keep-only-last-image policy enabled,
a run that streams the text token hi and one message event carrying three
distinct image references finalizes with exactly one image identifier but
with text content hi — the policy does not clear streamed text (it only
stops scanning the text for image URLs), so the claimed empty text content
fails. -/
theorem c2_keep_only_last_counterexample :
    ((runEvents
        { keepOnlyLastImage := true, storeOne := fun u => some ("stored-" ++ u) }
        {} [.token "hi", .message ["u1", "u2", "u3"] [], .done]).msg.contentText
      = "hi") ∧
    (runEvents
        { keepOnlyLastImage := true, storeOne := fun u => some ("stored-" ++ u) }
        {} [.token "hi", .message ["u1", "u2", "u3"] [], .done]).msg.contentText
      ≠ "" ∧
    (runEvents
        { keepOnlyLastImage := true, storeOne := fun u => some ("stored-" ++ u) }
        {} [.token "hi", .message ["u1", "u2", "u3"] [], .done]).msg.imageIds
      = ["stored-u3"] := by
  refine ⟨rfl, ?_, rfl⟩
  decide

/-- Claim C2, amended: with the keep-only-last-image policy enabled, a run
whose stream produces three distinct image references and no text, reasoning
or thinking tokens finalizes with exactly one image identifier — the one
resolved from the most recent reference, provided its resolution succeeds —
and empty text content; text already streamed is retained by the policy, so
the text is empty exactly when no text was streamed. -/
theorem c2_keep_only_last (u1 u2 u3 i : String)
    (store : String → Option String)
    (h3 : store u3 = some i) (hne : u3 ≠ "")
    (h12 : u1 ≠ u2) (h13 : u1 ≠ u3) (h23 : u2 ≠ u3) :
    (runEvents { keepOnlyLastImage := true, storeOne := store } {}
        [.message [u1, u2, u3] [], .done]).msg.imageIds = [i] ∧
    (runEvents { keepOnlyLastImage := true, storeOne := store } {}
        [.message [u1, u2, u3] [], .done]).msg.contentText = "" := by
  simp [runEvents, stepEv, handleDone, resolveRunImages,
    resolveAndStoreMessageImages, dedupUrls, collectImageUrlsFromAttachments,
    truthyTrim, h3, hne]

/-- Witness for the amended claim C2 at concrete references. -/
theorem c2_keep_only_last_witness :
    (runEvents
        { keepOnlyLastImage := true, storeOne := fun u => some ("s-" ++ u) }
        {} [.message ["u1", "u2", "u3"] [], .done]).msg.imageIds
      = ["s-u3"] ∧
    (runEvents
        { keepOnlyLastImage := true, storeOne := fun u => some ("s-" ++ u) }
        {} [.message ["u1", "u2", "u3"] [], .done]).msg.contentText = "" :=
  c2_keep_only_last "u1" "u2" "u3" "s-u3" (fun u => some ("s-" ++ u))
    rfl (by decide) (by decide) (by decide) (by decide)

/-- The executing fallback branch never touches the one-shot latch, the
execution counter or the abort marker. -/
theorem runFallbackExec_preserves (cfg : RunCfg) (st : RunSt) :
    (runFallbackExec cfg st).fallbackRan = st.fallbackRan ∧
    (runFallbackExec cfg st).fallbackExecCount = st.fallbackExecCount ∧
    (runFallbackExec cfg st).abortForFallback = st.abortForFallback := by
  unfold runFallbackExec
  rcases cfg.fallback with e | r <;> exact ⟨rfl, rfl, rfl⟩

/-- After any call to `runFallback` the latch is up. -/
theorem runFallback_ran (cfg : RunCfg) (st : RunSt) :
    (runFallback cfg st).fallbackRan = true := by
  unfold runFallback
  rcases h : st.fallbackRan
  · simp [h, (runFallbackExec_preserves cfg _).1]
  · simp [h]

/-- A call to `runFallback` increments the execution counter exactly when
the latch was down. -/
theorem runFallback_count (cfg : RunCfg) (st : RunSt) :
    (runFallback cfg st).fallbackExecCount =
      if st.fallbackRan then st.fallbackExecCount
      else st.fallbackExecCount + 1 := by
  unfold runFallback
  rcases h : st.fallbackRan
  · simp [h, (runFallbackExec_preserves cfg _).2.1]
  · simp [h]

/-- A call to `runFallback` leaves the abort marker alone. -/
theorem runFallback_abort (cfg : RunCfg) (st : RunSt) :
    (runFallback cfg st).abortForFallback = st.abortForFallback := by
  unfold runFallback
  rcases h : st.fallbackRan
  · simp [h, (runFallbackExec_preserves cfg _).2.2]
  · simp [h]

/-- On a quiet state the image resolution of the controller stores
nothing. -/
theorem resolveRunImages_quiet (cfg : RunCfg) (st : RunSt)
    (h : QuietSt st) :
    resolveRunImages cfg st = (st.msg, []) := by
  obtain ⟨-, htext, -, -, -, hurls, hatts, hlast⟩ := h
  unfold resolveRunImages resolveAndStoreMessageImages
  rcases hk : cfg.keepOnlyLastImage <;>
    simp [hk, hlast, hurls, hatts, htext, dedupUrls,
      collectImageUrlsFromAttachments]

/-- Processing one non-output, non-terminal event preserves the one-shot
invariant. -/
theorem stepEv_preserves_onceInv (cfg : RunCfg) (st : RunSt) (e : StreamEv)
    (he : isOutputEv e = false) (hd : e ≠ .done) (h : OnceInv st) :
    OnceInv (stepEv cfg st e) := by
  obtain ⟨hcount, hquiet⟩ := h
  cases e with
  | token s => simp [isOutputEv] at he
  | reasoningToken s => simp [isOutputEv] at he
  | thinkingToken s => simp [isOutputEv] at he
  | message urls atts => simp [isOutputEv] at he
  | usage p c q => exact ⟨hcount, hquiet⟩
  | requestId i => exact ⟨hcount, hquiet⟩
  | done => exact absurd rfl hd
  | decodeError msg =>
      unfold stepEv
      rcases hab : st.abortForFallback
      · simp only [hab, Bool.false_eq_true, if_false]
        refine ⟨hcount, fun hr => ?_⟩
        obtain ⟨q1, q2, q3, q4, q5, q6, q7, q8⟩ := hquiet hr
        exact ⟨q1, q2, q3, q4, q5, q6, q7, q8⟩
      · simp only [hab, if_true]
        exact ⟨hcount, hquiet⟩
  | timerFire =>
      unfold stepEv
      rcases hsaw : st.sawOutput || st.fallbackRan
      · rw [Bool.or_eq_false_iff] at hsaw
        simp only [Bool.false_eq_true, if_false]
        constructor
        · rw [runFallback_count, runFallback_ran]
          have hc0 : st.fallbackExecCount = 0 := by
            simp [hcount, hsaw.2]
          simp [hsaw.2, hc0]
        · intro hr
          rw [runFallback_ran] at hr
          exact absurd hr (by simp)
      · simp only [if_true]
        exact ⟨hcount, hquiet⟩

/-- Under the one-shot invariant the done handler leaves the fallback
executed exactly once: a quiet completion runs it now, and a completion
after the stall path already ran it does not run it again. -/
theorem handleDone_count_one (cfg : RunCfg) (st : RunSt) (h : OnceInv st) :
    (handleDone cfg st).fallbackExecCount = 1 := by
  obtain ⟨hcount, hquiet⟩ := h
  rcases hr : st.fallbackRan
  · have hq := hquiet hr
    have hres := resolveRunImages_quiet cfg st hq
    obtain ⟨q1, q2, q3, q4, q5, q6, q7, q8⟩ := hq
    have hc0 : st.fallbackExecCount = 0 := by simp [hcount, hr]
    unfold handleDone
    rw [hres]
    dsimp only
    rw [q1, q2, q3, q4, q5, q7]
    split
    · rw [runFallback_count]
      dsimp only
      rw [hr]
      simp [hc0]
    · rename_i hcond
      exact absurd (by decide) hcond
  · have hc1 : st.fallbackExecCount = 1 := by simp [hcount, hr]
    unfold handleDone
    dsimp only
    split
    · rw [runFallback_count]
      dsimp only
      rw [hr]
      simp [hc1]
    · dsimp only
      exact hc1

/-- Processing a no-output event stream that contains the done signal runs
the fallback exactly once, from any state satisfying the one-shot
invariant. -/
theorem runEvents_count_one (cfg : RunCfg) (events : List StreamEv)
    (st : RunSt) (hinv : OnceInv st)
    (hout : ∀ e ∈ events, isOutputEv e = false)
    (hdone : StreamEv.done ∈ events) :
    (runEvents cfg st events).fallbackExecCount = 1 := by
  induction events generalizing st with
  | nil => simp at hdone
  | cons e es ih =>
      have houtTail : ∀ x ∈ es, isOutputEv x = false :=
        fun x hx => hout x (List.mem_cons_of_mem _ hx)
      cases e with
      | done => exact handleDone_count_one cfg st hinv
      | token s =>
          exact absurd (hout _ (List.mem_cons_self _ _))
            (by simp [isOutputEv])
      | reasoningToken s =>
          exact absurd (hout _ (List.mem_cons_self _ _))
            (by simp [isOutputEv])
      | thinkingToken s =>
          exact absurd (hout _ (List.mem_cons_self _ _))
            (by simp [isOutputEv])
      | message urls atts =>
          exact absurd (hout _ (List.mem_cons_self _ _))
            (by simp [isOutputEv])
      | usage p c q =>
          have hdone2 : StreamEv.done ∈ es := by
            rcases List.mem_cons.mp hdone with h | h
            · exact absurd h (by simp)
            · exact h
          exact ih _
            (stepEv_preserves_onceInv cfg st _ rfl (by simp) hinv)
            houtTail hdone2
      | requestId i =>
          have hdone2 : StreamEv.done ∈ es := by
            rcases List.mem_cons.mp hdone with h | h
            · exact absurd h (by simp)
            · exact h
          exact ih _
            (stepEv_preserves_onceInv cfg st _ rfl (by simp) hinv)
            houtTail hdone2
      | decodeError msg =>
          have hdone2 : StreamEv.done ∈ es := by
            rcases List.mem_cons.mp hdone with h | h
            · exact absurd h (by simp)
            · exact h
          exact ih _
            (stepEv_preserves_onceInv cfg st _ rfl (by simp) hinv)
            houtTail hdone2
      | timerFire =>
          have hdone2 : StreamEv.done ∈ es := by
            rcases List.mem_cons.mp hdone with h | h
            · exact absurd h (by simp)
            · exact h
          exact ih _
            (stepEv_preserves_onceInv cfg st _ rfl (by simp) hinv)
            houtTail hdone2

/-- Claim C1: in every run whose decoded stream reports completion (the
done event) while producing no output event of any kind — no text,
reasoning, thinking, image or attachment — the non-streaming fallback
executes exactly once, not zero times and not twice, even when the stall
timer fires as well: the one-shot latch admits a single execution and the
no-output completion check always reaches the fallback call. -/
theorem c1_fallback_exactly_once (cfg : RunCfg) (events : List StreamEv)
    (hout : ∀ e ∈ events, isOutputEv e = false)
    (hdone : StreamEv.done ∈ events) :
    (runEvents cfg {} events).fallbackExecCount = 1 :=
  runEvents_count_one cfg events {}
    ⟨rfl, fun _ => ⟨rfl, rfl, rfl, rfl, rfl, rfl, rfl, rfl⟩⟩ hout hdone

/-- Witness for claim C1: a run in which the stall timer fires and the
stream then reports completion with no output runs the fallback exactly
once. -/
theorem c1_fallback_exactly_once_witness :
    (runEvents {} {}
      [StreamEv.timerFire, StreamEv.done]).fallbackExecCount = 1 :=
  c1_fallback_exactly_once {} [StreamEv.timerFire, StreamEv.done]
    (by decide) (by decide)

/-- The rendering worker maps zero to the empty digit string. -/
theorem natCharsAux_zero (fuel : Nat) : natCharsAux fuel 0 = [] := by
  cases fuel <;> rfl

/-- With enough fuel the rendering worker agrees with the base-ten digit
expansion, printed most-significant first. -/
theorem natCharsAux_eq_digits (fuel : Nat) :
    ∀ n : Nat, 0 < n → n ≤ fuel →
    natCharsAux fuel n = ((Nat.digits 10 n).map Nat.digitChar).reverse := by
  induction fuel with
  | zero => intro n hn hf; omega
  | succ fuel ih =>
      intro n hn hf
      rcases n with _ | m
      · omega
      have hdiv : (m + 1) / 10 < m + 1 :=
        Nat.div_lt_self (Nat.succ_pos m) (by norm_num)
      simp only [natCharsAux]
      rw [Nat.digits_def' (by norm_num : (1 : ℕ) < 10) (Nat.succ_pos m),
        List.map_cons, List.reverse_cons]
      congr 1
      rcases Nat.eq_zero_or_pos ((m + 1) / 10) with hq | hq
      · rw [hq, natCharsAux_zero]
        simp
      · exact ih _ hq (by omega)

/-- Base-ten digit characters are distinct for distinct digits. -/
theorem digitChar_inj_lt (d1 d2 : Nat) (h1 : d1 < 10) (h2 : d2 < 10)
    (h : Nat.digitChar d1 = Nat.digitChar d2) : d1 = d2 := by
  have hall : ∀ a < 10, ∀ b < 10,
      Nat.digitChar a = Nat.digitChar b → a = b := by decide
  exact hall d1 h1 d2 h2 h

/-- Mapping `Nat.digitChar` over digit lists is injective. -/
theorem map_digitChar_inj :
    ∀ (l1 l2 : List Nat), (∀ d ∈ l1, d < 10) → (∀ d ∈ l2, d < 10) →
    l1.map Nat.digitChar = l2.map Nat.digitChar → l1 = l2 := by
  intro l1
  induction l1 with
  | nil =>
      intro l2 _ _ h
      cases l2 with
      | nil => rfl
      | cons b bs => simp at h
  | cons a as ih =>
      intro l2 h1 h2 h
      cases l2 with
      | nil => simp at h
      | cons b bs =>
          simp only [List.map_cons, List.cons.injEq] at h
          have ha := h1 a (by simp)
          have hb := h2 b (by simp)
          rw [digitChar_inj_lt a b ha hb h.1,
            ih bs (fun d hd => h1 d (by simp [hd]))
              (fun d hd => h2 d (by simp [hd])) h.2]

/-- A positive number never renders as the single character zero. -/
theorem natChars_pos_ne_zero_char (n : Nat) (hn : n ≠ 0) :
    natChars n ≠ [Char.ofNat 48] := by
  intro h
  rw [natChars, if_neg hn,
    natCharsAux_eq_digits n n (Nat.pos_of_ne_zero hn) le_rfl] at h
  have h2 : (Nat.digits 10 n).map Nat.digitChar = [Char.ofNat 48] := by
    have hrev := congrArg List.reverse h
    simpa using hrev
  rcases hd : Nat.digits 10 n with _ | ⟨d, ds⟩
  · rw [hd] at h2
    simp at h2
  · rw [hd, List.map_cons] at h2
    rw [List.cons.injEq] at h2
    obtain ⟨hd0, hds⟩ := h2
    have hdlt : d < 10 :=
      Nat.digits_lt_base (by norm_num) (by rw [hd]; exact List.mem_cons_self _ _)
    have hd00 : d = 0 := by
      refine digitChar_inj_lt d 0 hdlt (by norm_num) ?_
      rw [hd0]
      decide
    have hdsnil : ds = [] := List.map_eq_nil_iff.mp hds
    have : n = 0 := by
      have hofd := congrArg (Nat.ofDigits 10) hd
      rw [Nat.ofDigits_digits, hd00, hdsnil] at hofd
      simpa [Nat.ofDigits] using hofd
    exact hn this

/-- The decimal rendering of run indices is injective. -/
theorem natChars_injective : Function.Injective natChars := by
  intro m n h
  by_cases hm : m = 0 <;> by_cases hn : n = 0
  · rw [hm, hn]
  · rw [hm, natChars, if_pos rfl] at h
    exact absurd h.symm (natChars_pos_ne_zero_char n hn)
  · rw [hn, show natChars 0 = [Char.ofNat 48] from rfl] at h
    exact absurd h (natChars_pos_ne_zero_char m hm)
  · rw [natChars, if_neg hm,
      natCharsAux_eq_digits m m (Nat.pos_of_ne_zero hm) le_rfl,
      natChars, if_neg hn,
      natCharsAux_eq_digits n n (Nat.pos_of_ne_zero hn) le_rfl] at h
    have h2 := List.reverse_injective h
    have h3 := map_digitChar_inj _ _
      (fun d hd => Nat.digits_lt_base (by norm_num) hd)
      (fun d hd => Nat.digits_lt_base (by norm_num) hd) h2
    have h4 := congrArg (Nat.ofDigits 10) h3
    rwa [Nat.ofDigits_digits, Nat.ofDigits_digits] at h4

/-- Keys of two runs of one model with distinct run indices are distinct. -/
theorem mkRunKey_ne_of_index_ne (m : List Char) (r rx : Nat) (h : rx ≠ r) :
    mkRunKey m (some rx) ≠ mkRunKey m (some r) := by
  intro hk
  unfold mkRunKey rendRunIndex at hk
  have h2 := List.append_cancel_left hk
  rw [List.cons.injEq] at h2
  exact h (natChars_injective h2.2)

/-- Every run key of a model carries the model-dash prefix probed by the
source. -/
theorem mkRunKey_hasModelDash (m : List Char) (r : Option Nat) :
    keyHasModelDash m (mkRunKey m r) = true := by
  unfold keyHasModelDash mkRunKey
  rw [decide_eq_true_eq]
  nth_rewrite 2 [List.append_cons]
  exact List.prefix_append _ _

/-- Claim C9: aborting a specific run index cancels only that run key.
Conjuncts in order: exactly the targeted key is cancelled; the surviving map
is the old map without that key; a sibling key of the same model with a
different index survives; with such a sibling present the streaming flag of
the model is written as true; when the flag is written as false no key of
the model remains; an abort without a run index cancels and removes every
key of the model; and that branch writes the flag as false. -/
theorem c9_abort_targets_single_run (ctrls : List RunKey) (m : List Char)
    (r rx : Nat) (hmem : mkRunKey m (some r) ∈ ctrls) (hne : rx ≠ r) :
    (abortStream ctrls m (some r)).cancelled = [mkRunKey m (some r)] ∧
    (abortStream ctrls m (some r)).ctrls
      = delKey (mkRunKey m (some r)) ctrls ∧
    (mkRunKey m (some rx) ∈ ctrls →
      mkRunKey m (some rx) ∈ (abortStream ctrls m (some r)).ctrls) ∧
    (mkRunKey m (some rx) ∈ ctrls →
      (abortStream ctrls m (some r)).flagUpdate = some true) ∧
    ((abortStream ctrls m (some r)).flagUpdate = some false →
      ∀ ry : Option Nat,
        mkRunKey m ry ∉ (abortStream ctrls m (some r)).ctrls) ∧
    (∀ ry : Option Nat, mkRunKey m ry ∈ ctrls →
      mkRunKey m ry ∈ (abortStream ctrls m none).cancelled ∧
      mkRunKey m ry ∉ (abortStream ctrls m none).ctrls) ∧
    (abortStream ctrls m none).flagUpdate = some false := by
  have hkne : mkRunKey m (some rx) ≠ mkRunKey m (some r) :=
    mkRunKey_ne_of_index_ne m r rx hne
  have habort : abortStream ctrls m (some r) =
      ⟨delKey (mkRunKey m (some r)) ctrls,
        [mkRunKey m (some r)],
        some ((delKey (mkRunKey m (some r)) ctrls).any
          (keyHasModelDash m))⟩ := by
    unfold abortStream
    dsimp only
    rw [if_pos hmem]
  refine ⟨?_, ?_, ?_, ?_, ?_, ?_, ?_⟩
  · rw [habort]
  · rw [habort]
  · intro hx
    rw [habort]
    exact List.mem_filter.mpr ⟨hx, by simp [hkne]⟩
  · intro hx
    rw [habort]
    dsimp only
    rw [Option.some.injEq, List.any_eq_true]
    exact ⟨mkRunKey m (some rx),
      List.mem_filter.mpr ⟨hx, by simp [hkne]⟩,
      mkRunKey_hasModelDash m (some rx)⟩
  · intro hfalse ry hmem2
    rw [habort] at hfalse hmem2
    dsimp only at hfalse hmem2
    rw [Option.some.injEq] at hfalse
    have hall := List.any_eq_false.mp hfalse _ hmem2
    exact hall (mkRunKey_hasModelDash m ry)
  · intro ry hmem2
    constructor
    · unfold abortStream
      dsimp only
      exact List.mem_filter.mpr
        ⟨hmem2, by simp [mkRunKey_hasModelDash m ry]⟩
    · unfold abortStream
      dsimp only
      intro hcontra
      have hpred := (List.mem_filter.mp hcontra).2
      simp [mkRunKey_hasModelDash m ry] at hpred
  · rfl

/-- Witness for claim C9 at a concrete map holding run 1 and run 2 of one
model: aborting run 1 cancels only its key, run 2 survives, the flag stays
true, and the indexless abort clears both. -/
theorem c9_abort_targets_single_run_witness :
    (abortStream [mkRunKey [Char.ofNat 109] (some 1),
        mkRunKey [Char.ofNat 109] (some 2)] [Char.ofNat 109]
        (some 1)).cancelled
      = [mkRunKey [Char.ofNat 109] (some 1)] ∧
    (abortStream [mkRunKey [Char.ofNat 109] (some 1),
        mkRunKey [Char.ofNat 109] (some 2)] [Char.ofNat 109]
        (some 1)).ctrls
      = delKey (mkRunKey [Char.ofNat 109] (some 1))
        [mkRunKey [Char.ofNat 109] (some 1),
          mkRunKey [Char.ofNat 109] (some 2)] ∧
    (mkRunKey [Char.ofNat 109] (some 2)
        ∈ [mkRunKey [Char.ofNat 109] (some 1),
            mkRunKey [Char.ofNat 109] (some 2)] →
      mkRunKey [Char.ofNat 109] (some 2)
        ∈ (abortStream [mkRunKey [Char.ofNat 109] (some 1),
            mkRunKey [Char.ofNat 109] (some 2)] [Char.ofNat 109]
            (some 1)).ctrls) ∧
    (mkRunKey [Char.ofNat 109] (some 2)
        ∈ [mkRunKey [Char.ofNat 109] (some 1),
            mkRunKey [Char.ofNat 109] (some 2)] →
      (abortStream [mkRunKey [Char.ofNat 109] (some 1),
          mkRunKey [Char.ofNat 109] (some 2)] [Char.ofNat 109]
          (some 1)).flagUpdate = some true) ∧
    ((abortStream [mkRunKey [Char.ofNat 109] (some 1),
        mkRunKey [Char.ofNat 109] (some 2)] [Char.ofNat 109]
        (some 1)).flagUpdate = some false →
      ∀ ry : Option Nat, mkRunKey [Char.ofNat 109] ry
        ∉ (abortStream [mkRunKey [Char.ofNat 109] (some 1),
            mkRunKey [Char.ofNat 109] (some 2)] [Char.ofNat 109]
            (some 1)).ctrls) ∧
    (∀ ry : Option Nat, mkRunKey [Char.ofNat 109] ry
        ∈ [mkRunKey [Char.ofNat 109] (some 1),
            mkRunKey [Char.ofNat 109] (some 2)] →
      mkRunKey [Char.ofNat 109] ry
        ∈ (abortStream [mkRunKey [Char.ofNat 109] (some 1),
            mkRunKey [Char.ofNat 109] (some 2)] [Char.ofNat 109]
            none).cancelled ∧
      mkRunKey [Char.ofNat 109] ry
        ∉ (abortStream [mkRunKey [Char.ofNat 109] (some 1),
            mkRunKey [Char.ofNat 109] (some 2)] [Char.ofNat 109]
            none).ctrls) ∧
    (abortStream [mkRunKey [Char.ofNat 109] (some 1),
        mkRunKey [Char.ofNat 109] (some 2)] [Char.ofNat 109]
        none).flagUpdate = some false :=
  c9_abort_targets_single_run
    [mkRunKey [Char.ofNat 109] (some 1), mkRunKey [Char.ofNat 109] (some 2)]
    [Char.ofNat 109] 1 2 (by decide) (by decide)

/-- The executing fallback branch always leaves a terminal status. -/
theorem runFallbackExec_status (cfg : RunCfg) (st : RunSt) :
    (runFallbackExec cfg st).msg.status = "complete" ∨
    (runFallbackExec cfg st).msg.status = "error" := by
  unfold runFallbackExec
  rcases cfg.fallback with e | r
  · exact Or.inr rfl
  · exact Or.inl rfl

/-- A fallback call leaves a terminal status, provided the status was
already terminal whenever the latch was up. -/
theorem runFallback_status (cfg : RunCfg) (st : RunSt)
    (h : st.fallbackRan = true →
      st.msg.status = "complete" ∨ st.msg.status = "error") :
    (runFallback cfg st).msg.status = "complete" ∨
    (runFallback cfg st).msg.status = "error" := by
  unfold runFallback
  rcases hr : st.fallbackRan
  · simp only [Bool.false_eq_true, if_false]
    exact runFallbackExec_status cfg _
  · simp only [if_true]
    exact h hr

/-- Image resolution never changes the message status. -/
theorem resolveRunImages_status (cfg : RunCfg) (st : RunSt) :
    (resolveRunImages cfg st).1.status = st.msg.status := by
  unfold resolveRunImages resolveAndStoreMessageImages
  dsimp only
  repeat' split
  all_goals rfl

/-- The done handler leaves a terminal status, provided the status was
already terminal whenever the latch was up. -/
theorem handleDone_status (cfg : RunCfg) (st : RunSt)
    (h : st.fallbackRan = true →
      st.msg.status = "complete" ∨ st.msg.status = "error") :
    (handleDone cfg st).msg.status = "complete" ∨
    (handleDone cfg st).msg.status = "error" := by
  unfold handleDone
  dsimp only
  split
  · refine runFallback_status cfg _ (fun hr => ?_)
    show (resolveRunImages cfg st).1.status = "complete" ∨
      (resolveRunImages cfg st).1.status = "error"
    rw [resolveRunImages_status]
    exact h hr
  · exact Or.inl rfl

/-- The done handler leaves the abort marker unchanged. -/
theorem handleDone_abort (cfg : RunCfg) (st : RunSt) :
    (handleDone cfg st).abortForFallback = st.abortForFallback := by
  unfold handleDone
  dsimp only
  split
  · rw [runFallback_abort]
  · rfl

/-- The done handler never lowers the fallback latch. -/
theorem handleDone_ran_mono (cfg : RunCfg) (st : RunSt)
    (h : st.fallbackRan = true) :
    (handleDone cfg st).fallbackRan = true := by
  unfold handleDone
  dsimp only
  split
  · rw [runFallback_ran]
  · exact h

/-- Every controller event preserves the terminal-analysis invariant. -/
theorem stepEv_preserves_abortInv (cfg : RunCfg) (st : RunSt) (e : StreamEv)
    (h : AbortInv st) : AbortInv (stepEv cfg st e) := by
  obtain ⟨h1, h2⟩ := h
  cases e with
  | token s => exact ⟨h1, h2⟩
  | reasoningToken s =>
      unfold stepEv
      dsimp only
      split
      · exact ⟨h1, h2⟩
      · exact ⟨h1, h2⟩
  | thinkingToken s =>
      unfold stepEv
      dsimp only
      split
      · exact ⟨h1, h2⟩
      · exact ⟨h1, h2⟩
  | message urls atts => exact ⟨h1, h2⟩
  | usage p c q => exact ⟨h1, h2⟩
  | requestId i => exact ⟨h1, h2⟩
  | decodeError msg =>
      unfold stepEv
      rcases hab : st.abortForFallback
      · simp only [hab, Bool.false_eq_true, if_false]
        exact ⟨fun hh => absurd hh (by simp), fun _ => Or.inr rfl⟩
      · simp only [hab, if_true]
        exact ⟨fun _ => h1 hab, h2⟩
  | done => exact ⟨h1, h2⟩
  | timerFire =>
      unfold stepEv
      rcases hsaw : st.sawOutput || st.fallbackRan
      · rw [Bool.or_eq_false_iff] at hsaw
        simp only [Bool.false_eq_true, if_false]
        refine ⟨fun _ => runFallback_ran cfg _, fun _ => ?_⟩
        refine runFallback_status cfg _ (fun hr => ?_)
        exact absurd (show st.fallbackRan = true from hr)
          (by simp [hsaw.2])
      · simp only [if_true]
        exact ⟨h1, h2⟩

/-- Processing the event stream preserves the terminal-analysis
invariant. -/
theorem runEvents_preserves_abortInv (cfg : RunCfg) (events : List StreamEv)
    (st : RunSt) (h : AbortInv st) :
    AbortInv (runEvents cfg st events) := by
  induction events generalizing st with
  | nil => exact h
  | cons e es ih =>
      cases e with
      | done =>
          show AbortInv (handleDone cfg st)
          refine ⟨fun hab => ?_, fun _ => handleDone_status cfg st h.2⟩
          rw [handleDone_abort] at hab
          exact handleDone_ran_mono cfg st (h.1 hab)
      | token s => exact ih _ (stepEv_preserves_abortInv cfg st _ h)
      | reasoningToken s => exact ih _ (stepEv_preserves_abortInv cfg st _ h)
      | thinkingToken s => exact ih _ (stepEv_preserves_abortInv cfg st _ h)
      | message urls atts => exact ih _ (stepEv_preserves_abortInv cfg st _ h)
      | usage p c q => exact ih _ (stepEv_preserves_abortInv cfg st _ h)
      | requestId i => exact ih _ (stepEv_preserves_abortInv cfg st _ h)
      | decodeError msg => exact ih _ (stepEv_preserves_abortInv cfg st _ h)
      | timerFire => exact ih _ (stepEv_preserves_abortInv cfg st _ h)

/-- A stream that reports completion ends with a terminal status. -/
theorem runEvents_status_done (cfg : RunCfg) (events : List StreamEv)
    (st : RunSt) (h : AbortInv st) (hdone : StreamEv.done ∈ events) :
    (runEvents cfg st events).msg.status = "complete" ∨
    (runEvents cfg st events).msg.status = "error" := by
  induction events generalizing st with
  | nil => simp at hdone
  | cons e es ih =>
      cases e with
      | done => exact handleDone_status cfg st h.2
      | token s =>
          refine ih _ (stepEv_preserves_abortInv cfg st _ h) ?_
          rcases List.mem_cons.mp hdone with hh | hh
          · exact absurd hh (by simp)
          · exact hh
      | reasoningToken s =>
          refine ih _ (stepEv_preserves_abortInv cfg st _ h) ?_
          rcases List.mem_cons.mp hdone with hh | hh
          · exact absurd hh (by simp)
          · exact hh
      | thinkingToken s =>
          refine ih _ (stepEv_preserves_abortInv cfg st _ h) ?_
          rcases List.mem_cons.mp hdone with hh | hh
          · exact absurd hh (by simp)
          · exact hh
      | message urls atts =>
          refine ih _ (stepEv_preserves_abortInv cfg st _ h) ?_
          rcases List.mem_cons.mp hdone with hh | hh
          · exact absurd hh (by simp)
          · exact hh
      | usage p c q =>
          refine ih _ (stepEv_preserves_abortInv cfg st _ h) ?_
          rcases List.mem_cons.mp hdone with hh | hh
          · exact absurd hh (by simp)
          · exact hh
      | requestId i =>
          refine ih _ (stepEv_preserves_abortInv cfg st _ h) ?_
          rcases List.mem_cons.mp hdone with hh | hh
          · exact absurd hh (by simp)
          · exact hh
      | decodeError msg =>
          refine ih _ (stepEv_preserves_abortInv cfg st _ h) ?_
          rcases List.mem_cons.mp hdone with hh | hh
          · exact absurd hh (by simp)
          · exact hh
      | timerFire =>
          refine ih _ (stepEv_preserves_abortInv cfg st _ h) ?_
          rcases List.mem_cons.mp hdone with hh | hh
          · exact absurd hh (by simp)
          · exact hh

/-- Claim C8, counterexample: the terminal branches are not mutually
exclusive. In a run whose stream carries one malformed frame, then a text
token, then the done signal, the decode-error callback takes the error
branch (marking the message as an error) and the completion still takes the
finalize branch — both execute once in a single run, against the claimed
exactly-one; the final status is complete. -/
theorem c8_error_and_finalize_both_execute :
    (requestCompletionForModel {} [] (mkRunKey [Char.ofNat 109] (some 1))
        [StreamEv.decodeError "bad frame", StreamEv.token "x", StreamEv.done]
        EndKind.clean).1.errorBranchCount = 1 ∧
    (requestCompletionForModel {} [] (mkRunKey [Char.ofNat 109] (some 1))
        [StreamEv.decodeError "bad frame", StreamEv.token "x", StreamEv.done]
        EndKind.clean).1.finalizeCount = 1 ∧
    (requestCompletionForModel {} [] (mkRunKey [Char.ofNat 109] (some 1))
        [StreamEv.decodeError "bad frame", StreamEv.token "x", StreamEv.done]
        EndKind.clean).1.msg.status = "complete" := by
  refine ⟨rfl, rfl, rfl⟩

/-- Claim C8, amended: the run key is removed from the active controller
map in every terminal path — normal completion, thrown transport error, and
the stall-abort path alike — and the run ends with exactly one terminal
status, complete or error; the terminal branches themselves, however, are
not mutually exclusive (see the decode-error counterexample). -/
theorem c8_run_key_removed_terminal_status (cfg : RunCfg)
    (ctrls : List RunKey) (key : RunKey) (events : List StreamEv)
    (ek : EndKind) (hclean : ek = EndKind.clean → StreamEv.done ∈ events) :
    key ∉ (requestCompletionForModel cfg ctrls key events ek).2 ∧
    ((requestCompletionForModel cfg ctrls key events ek).1.msg.status
        = "complete" ∨
      (requestCompletionForModel cfg ctrls key events ek).1.msg.status
        = "error") := by
  constructor
  · show key ∉ delKey key (setKey key ctrls)
    unfold delKey
    intro hmem
    have hpred := (List.mem_filter.mp hmem).2
    simp at hpred
  · have hinv0 : AbortInv ({} : RunSt) :=
      ⟨fun hh => absurd hh (by decide), fun hh => absurd hh (by decide)⟩
    have hinv := runEvents_preserves_abortInv cfg events {} hinv0
    show (finishRun (runEvents cfg {} events) ek).msg.status = "complete" ∨
      (finishRun (runEvents cfg {} events) ek).msg.status = "error"
    cases ek with
    | clean =>
        exact runEvents_status_done cfg events {} hinv0 (hclean rfl)
    | thrown msg =>
        unfold finishRun
        rcases hab : (runEvents cfg {} events).abortForFallback
        · simp [hab]
        · simp only [hab, if_true]
          exact hinv.2 (hinv.1 hab)

/-- Witness for the amended claim C8 at a concrete run: a stream that only
reports completion has its key removed and ends in a terminal status. -/
theorem c8_run_key_removed_terminal_status_witness :
    [Char.ofNat 107] ∉ (requestCompletionForModel {} [] [Char.ofNat 107]
        [StreamEv.done] EndKind.clean).2 ∧
    ((requestCompletionForModel {} [] [Char.ofNat 107]
        [StreamEv.done] EndKind.clean).1.msg.status = "complete" ∨
      (requestCompletionForModel {} [] [Char.ofNat 107]
        [StreamEv.done] EndKind.clean).1.msg.status = "error") :=
  c8_run_key_removed_terminal_status {} [] [Char.ofNat 107]
    [StreamEv.done] EndKind.clean (fun _ => List.mem_cons_self _ _)

end ImageEditBench
